import Mathlib

set_option maxRecDepth 8000

/-!
Shallow embedding of the streaming-chat pipeline of the "Cloud" web application:
the server-side chat relay (supabase/functions/chat/index.ts), the client-side
SSE stream reassembler (src/components/CloudChat.tsx), the CLI marker cleanup
chain (src/components/CLIChat.tsx) and the weather marker parser
(src/components/WeatherCard.tsx).  Text is modelled as `List Char`; the
JavaScript runtime pieces the code relies on (JSON.parse, String.prototype
methods, regex matching) are given executable Lean translations.
-/

namespace Cloud


/-- Character-list model of a JavaScript string. -/
abbrev Txt := List Char

/-- Shorthand to write text literals. -/
def txt (s : String) : Txt := s.data

/-- JavaScript `\s` / `String.prototype.trim` whitespace class (ASCII part;
the Unicode space members are irrelevant to every string this development
touches). -/
def isWs (c : Char) : Bool :=
  c = ' ' || c = '\t' || c = '\n' || c = '\r' || c = '\x0b' || c = '\x0c'

/-- Left part of JS `trim`. -/
def ltrim (l : Txt) : Txt := l.dropWhile isWs

/-- Right part of JS `trim`. -/
def rtrim (l : Txt) : Txt := (l.reverse.dropWhile isWs).reverse

/-- JS `String.prototype.trim`: strip whitespace from both ends. -/
def trim (l : Txt) : Txt := rtrim (ltrim l)

/-- JS `String.prototype.toLowerCase` (ASCII). -/
def lower (l : Txt) : Txt := l.map Char.toLower

/-- JSON values as produced by `JSON.parse`.  Numbers keep their source
spelling: no claim in this development depends on numeric magnitude beyond
zero-ness. -/
inductive Json where
  | jnull
  | jbool (b : Bool)
  | jnum (raw : Txt)
  | jstr (s : Txt)
  | jarr (xs : List Json)
  | jobj (fields : List (Txt × Json))

/-- JSON (RFC 8259) whitespace accepted by `JSON.parse` — note this is a
smaller class than the JS regex `\s`. -/
def isJsonWs (c : Char) : Bool :=
  c = ' ' || c = '\t' || c = '\n' || c = '\r'

def skipJsonWs (l : Txt) : Txt := l.dropWhile isJsonWs

def hexVal (c : Char) : Option Nat :=
  if '0' ≤ c ∧ c ≤ '9' then some (c.toNat - '0'.toNat)
  else if 'a' ≤ c ∧ c ≤ 'f' then some (c.toNat - 'a'.toNat + 10)
  else if 'A' ≤ c ∧ c ≤ 'F' then some (c.toNat - 'A'.toNat + 10)
  else none

/-- Body of a JSON string literal, after the opening quote: returns the
decoded characters and the remaining input after the closing quote.
`JSON.parse` rejects raw control characters below U+0020 inside strings. -/
def jsonStringBody : Nat → Txt → Option (Txt × Txt)
  | 0, _ => none
  | _ + 1, [] => none
  | fuel + 1, c :: cs =>
    if c = '"' then some ([], cs)
    else if c.toNat < 0x20 then none
    else if c = '\\' then
      match cs with
      | [] => none
      | e :: cs2 =>
        let cont (d : Char) (rest : Txt) : Option (Txt × Txt) :=
          match jsonStringBody fuel rest with
          | some (s, r) => some (d :: s, r)
          | none => none
        if e = '"' then cont '"' cs2
        else if e = '\\' then cont '\\' cs2
        else if e = '/' then cont '/' cs2
        else if e = 'b' then cont '\x08' cs2
        else if e = 'f' then cont '\x0c' cs2
        else if e = 'n' then cont '\n' cs2
        else if e = 'r' then cont '\r' cs2
        else if e = 't' then cont '\t' cs2
        else if e = 'u' then
          match cs2 with
          | h1 :: h2 :: h3 :: h4 :: cs3 =>
            match hexVal h1, hexVal h2, hexVal h3, hexVal h4 with
            | some a, some b, some c3, some d4 =>
              let n := ((a * 16 + b) * 16 + c3) * 16 + d4
              -- Lone surrogates in JS become replacement-like code units; no
              -- input in this development contains them.
              cont (Char.ofNat n) cs3
            | _, _, _, _ => none
          | _ => none
        else none
    else
      match jsonStringBody fuel cs with
      | some (s, r) => some (c :: s, r)
      | none => none

def isDigit (c : Char) : Bool := '0' ≤ c && c ≤ '9'

/-- JSON number grammar: `-? int frac? exp?` with `int = 0 | [1-9][0-9]*`.
Returns the consumed spelling and the rest. -/
def jsonNumber (l : Txt) : Option (Txt × Txt) :=
  let (neg, l1) :=
    match l with
    | '-' :: r => (['-'], r)
    | _ => (([] : Txt), l)
  match l1 with
  | [] => none
  | c :: _ =>
    if ¬ isDigit c then none
    else
      let intPart := l1.takeWhile isDigit
      let afterInt := l1.dropWhile isDigit
      if intPart.length > 1 ∧ intPart.take 1 = ['0'] then none
      else
        let (fracPart, afterFrac) :=
          match afterInt with
          | '.' :: r =>
            let ds := r.takeWhile isDigit
            if ds = [] then (([] : Txt), afterInt)
            else ('.' :: ds, r.dropWhile isDigit)
          | _ => (([] : Txt), afterInt)
        if afterInt ≠ afterFrac ∨ fracPart = [] then
          let (expPart, afterExp) :=
            match afterFrac with
            | e :: r =>
              if e = 'e' ∨ e = 'E' then
                let (sgn, r2) :=
                  match r with
                  | s :: r3 => if s = '+' ∨ s = '-' then ([s], r3) else (([] : Txt), r)
                  | [] => (([] : Txt), r)
                let ds := r2.takeWhile isDigit
                if ds = [] then (([] : Txt), afterFrac)
                else (e :: (sgn ++ ds), r2.dropWhile isDigit)
              else (([] : Txt), afterFrac)
            | [] => (([] : Txt), afterFrac)
          some (neg ++ intPart ++ fracPart ++ expPart, afterExp)
        else none

/-- Is `p` a prefix of `l` (Boolean form of JS `startsWith`). -/
def startsWith (p l : Txt) : Bool := List.isPrefixOf p l

mutual

/-- One JSON value (leading whitespace allowed), fuel-indexed. -/
def jsonVal : Nat → Txt → Option (Json × Txt)
  | 0, _ => none
  | fuel + 1, l =>
    match skipJsonWs l with
    | [] => none
    | c :: cs =>
      if c = '{' then
        match skipJsonWs cs with
        | '}' :: r => some (.jobj [], r)
        | _ => match jsonMembers fuel cs with
          | some (fs, r) => some (.jobj fs, r)
          | none => none
      else if c = '[' then
        match skipJsonWs cs with
        | ']' :: r => some (.jarr [], r)
        | _ => match jsonItems fuel cs with
          | some (xs, r) => some (.jarr xs, r)
          | none => none
      else if c = '"' then
        match jsonStringBody (cs.length + 1) cs with
        | some (s, r) => some (.jstr s, r)
        | none => none
      else if startsWith (txt "true") (c :: cs) then some (.jbool true, (c :: cs).drop 4)
      else if startsWith (txt "false") (c :: cs) then some (.jbool false, (c :: cs).drop 5)
      else if startsWith (txt "null") (c :: cs) then some (.jnull, (c :: cs).drop 4)
      else
        match jsonNumber (c :: cs) with
        | some (raw, r) => some (.jnum raw, r)
        | none => none

/-- `key : value` members of an object, expecting at least one. -/
def jsonMembers : Nat → Txt → Option (List (Txt × Json) × Txt)
  | 0, _ => none
  | fuel + 1, l =>
    match skipJsonWs l with
    | '"' :: cs =>
      match jsonStringBody (cs.length + 1) cs with
      | some (k, r) =>
        match skipJsonWs r with
        | ':' :: r2 =>
          match jsonVal fuel r2 with
          | some (v, r3) =>
            match skipJsonWs r3 with
            | ',' :: r4 =>
              match jsonMembers fuel r4 with
              | some (fs, r5) => some ((k, v) :: fs, r5)
              | none => none
            | '}' :: r4 => some ([(k, v)], r4)
            | _ => none
          | none => none
        | _ => none
      | none => none
    | _ => none

/-- Comma-separated array items, expecting at least one. -/
def jsonItems : Nat → Txt → Option (List Json × Txt)
  | 0, _ => none
  | fuel + 1, l =>
    match jsonVal fuel l with
    | some (v, r) =>
      match skipJsonWs r with
      | ',' :: r2 =>
        match jsonItems fuel r2 with
        | some (xs, r3) => some (v :: xs, r3)
        | none => none
      | ']' :: r2 => some ([v], r2)
      | _ => none
    | none => none

end

/-- Model of `JSON.parse`: one value, then only trailing whitespace. -/
def jsonParse (l : Txt) : Option Json :=
  match jsonVal (l.length + 1) l with
  | some (v, r) => if skipJsonWs r = [] then some v else none
  | none => none

/-! ## Chat messages (the `Message` shape of CloudChat.tsx) -/

inductive Role where
  | user
  | assistant
deriving DecidableEq, Repr

inductive PKind where
  | textPart
  | imagePart
deriving DecidableEq, Repr

/-- One element of a `MessageContent[]` array. -/
structure CPart where
  kind : PKind
  ptext : Option Txt
deriving DecidableEq, Repr

/-- `content: string | MessageContent[]`. -/
inductive MContent where
  | plain (t : Txt)
  | parts (ps : List CPart)
deriving DecidableEq, Repr

structure Msg where
  role : Role
  content : MContent
deriving DecidableEq, Repr

/-! ## JS-semantics helpers for the parsed frame -/

/-- Property access `v[k]` for a string key: only objects carry named
properties that concern this pipeline; for duplicate keys the later entry
wins, as in a JS object literal. -/
def jGet (v : Json) (k : Txt) : Option Json :=
  match v with
  | .jobj fs => (fs.reverse.find? (fun f => f.1 = k)).map (·.2)
  | _ => none

/-- Index access `v[0]`: arrays index positionally; objects fall back to the
string key "0"; strings yield a one-character string, as in JS. -/
def jIdx0 (v : Json) : Option Json :=
  match v with
  | .jarr xs => xs.get? 0
  | .jobj _ => jGet v ['0']
  | .jstr (c :: _) => some (.jstr [c])
  | _ => none

/-- `parsed.choices?.[0]?.delta?.content`. -/
def frameContent (v : Json) : Option Json :=
  (jGet v (txt "choices")).bind fun c =>
    (jIdx0 c).bind fun c0 =>
      (jGet c0 (txt "delta")).bind fun d =>
        jGet d (txt "content")

/-- Does the raw spelling of a JSON number denote zero (`0`, `-0`, `0.00`,
`0e9`, ...)?  Exactly when every digit of mantissa and fraction is `0`. -/
def jnumIsZero (raw : Txt) : Bool :=
  (raw.takeWhile (fun c => c ≠ 'e' ∧ c ≠ 'E')).all
    (fun c => c = '0' ∨ c = '-' ∨ c = '.')

/-- JS truthiness of a JSON value. -/
def jsTruthy (v : Json) : Bool :=
  match v with
  | .jnull => false
  | .jbool b => b
  | .jnum raw => ¬ jnumIsZero raw
  | .jstr s => s ≠ []
  | .jarr _ => true
  | .jobj _ => true

def jsTruthyOpt (v : Option Json) : Bool :=
  match v with
  | none => false
  | some j => jsTruthy j

/-- JS string coercion of the extracted delta, as used by
`assistantContent += content`.  Every stream this development examines carries
string deltas; for the other shapes the spelling-level rendering is a
faithful-enough stand-in (noted, never exercised). -/
def jsToStr (v : Json) : Txt :=
  match v with
  | .jnull => txt "null"
  | .jbool b => if b then txt "true" else txt "false"
  | .jnum raw => raw
  | .jstr s => s
  | .jarr _ => txt ""
  | .jobj _ => txt "[object Object]"

def jsToStrOpt (v : Option Json) : Txt :=
  match v with
  | none => txt "undefined"
  | some j => jsToStr j

/-- `JSON.parse(jsonStr)` followed by the member chain
`parsed.choices?.[0]?.delta?.content`: `none` models a thrown exception —
either `JSON.parse` throwing on malformed input, or the unguarded
`parsed.choices` access throwing a TypeError when the parsed value is `null`
(the chain only optional-guards the later steps). -/
def tryFrame (s : Txt) : Option (Option Json) :=
  match jsonParse s with
  | none => none
  | some .jnull => none
  | some v => some (frameContent v)

/-! ## The client-side stream reassembler (CloudChat.tsx `sendMessage`) -/

/-- Reassembler state: the line buffer, the accumulated assistant text and
the message list being displayed. -/
structure RState where
  buffer : Txt
  acc : Txt
  msgs : List Msg
deriving DecidableEq, Repr

/-- Split a buffer at its first newline (`textBuffer.indexOf("\n")` plus the
two `slice` calls): the extracted line (newline excluded) and the rest. -/
def splitLine : Txt → Option (Txt × Txt)
  | [] => none
  | c :: cs =>
    if c = '\n' then some ([], cs)
    else
      match splitLine cs with
      | some (l, r) => some (c :: l, r)
      | none => none

/-- `if (line.endsWith("\r")) line = line.slice(0, -1)`. -/
def stripCR (l : Txt) : Txt := if l.getLast? = some '\r' then l.dropLast else l

/-- One pass of the inner `while` loop of `sendMessage`: repeatedly extract
complete lines from the buffer.  Parse failure (or the `null` TypeError)
pushes the line back in front of the buffer, reconstructed with its newline,
and stops; `data: [DONE]` stops; other lines are skipped or folded into the
accumulating assistant text, updating the displayed message list. -/
def updAssistant (msgs : List Msg) (acc : Txt) : List Msg :=
  match msgs.getLast? with
  | some m =>
    if m.role = .assistant then msgs.dropLast ++ [⟨.assistant, .plain acc⟩]
    else msgs ++ [⟨.assistant, .plain acc⟩]
  | none => msgs ++ [⟨.assistant, .plain acc⟩]

def drainF : Nat → RState → RState
  | 0, st => st
  | fuel + 1, st =>
    match splitLine st.buffer with
    | none => st
    | some (line0, rest) =>
      let line := stripCR line0
      if startsWith (txt ":") line ∨ trim line = [] then
        drainF fuel ⟨rest, st.acc, st.msgs⟩
      else if ¬ startsWith (txt "data: ") line then
        drainF fuel ⟨rest, st.acc, st.msgs⟩
      else
        let jsonStr := trim (line.drop 6)
        if jsonStr = txt "[DONE]" then ⟨rest, st.acc, st.msgs⟩
        else
          match tryFrame jsonStr with
          | none => ⟨line ++ '\n' :: rest, st.acc, st.msgs⟩
          | some content =>
            if jsTruthyOpt content then
              drainF fuel ⟨rest, st.acc ++ jsToStrOpt content,
                           updAssistant st.msgs (st.acc ++ jsToStrOpt content)⟩
            else drainF fuel ⟨rest, st.acc, st.msgs⟩

/-- The inner loop; the fuel `length + 1` suffices because every iteration
that continues consumes at least the extracted newline from the buffer. -/
def drain (st : RState) : RState := drainF (st.buffer.length + 1) st

/-- Feeding one decoded chunk: `textBuffer += decoder.decode(value)` then the
inner loop. -/
def feed (st : RState) (chunk : Txt) : RState :=
  drain ⟨st.buffer ++ chunk, st.acc, st.msgs⟩

/-- The whole read loop over a sequence of delivered chunks, starting from
the message list as it stands after the user's message was appended. -/
def runStream (msgs0 : List Msg) (chunks : List Txt) : RState :=
  chunks.foldl feed ⟨[], [], msgs0⟩

def apologyMsg : Msg :=
  ⟨.assistant, .plain (txt "Sorry, I encountered an error. Please try again.")⟩

def noResponseMsg : Msg :=
  ⟨.assistant,
   .plain (txt "I apologize, but I couldn\x27t generate a response. Please try again.")⟩

/-- `sendMessage` after the fetch succeeded: process the delivered chunks;
`errored = true` means the transport failed there (e.g. `reader.read()`
rejected), taking the `catch` path; otherwise the empty-accumulator fallback
of the success path applies. -/
def runSend (msgs0 : List Msg) (chunks : List Txt) (errored : Bool) : List Msg :=
  let st := runStream msgs0 chunks
  if errored then st.msgs ++ [apologyMsg]
  else if st.acc = [] then st.msgs ++ [noResponseMsg]
  else st.msgs

/-! ## In-band marker spans

A regex of the shape `/\[TAG\]([\s\S]*?)\[\/TAG\]/` finds, leftmost-first,
an occurrence of the opening literal followed by the nearest occurrence of
the closing literal (the lazy `[\s\S]*?` takes the shortest span).  Since
every occurrence of the closing literal lies after every earlier occurrence
of the opening literal, this is: the first opening occurrence, paired with
the first closing occurrence after it. -/

/-- Index of the first occurrence of `pat` in `l` (JS `indexOf`). -/
def findSub (pat : Txt) (l : Txt) : Option Nat :=
  if startsWith pat l then some 0
  else
    match l with
    | [] => none
    | _ :: cs => (findSub pat cs).map (· + 1)

/-- First `[TAG]...[/TAG]` span: the text before, the payload between the
delimiters, and the text after. -/
def firstSpan (opn cls l : Txt) : Option (Txt × Txt × Txt) :=
  match findSub opn l with
  | none => none
  | some i =>
    let afterOpen := l.drop (i + opn.length)
    match findSub cls afterOpen with
    | none => none
    | some j =>
      some (l.take i, afterOpen.take j, afterOpen.drop (j + cls.length))

/-- `WeatherCard.tsx` `parseWeatherFromText`: match the first
`[WEATHER_DATA]...[/WEATHER_DATA]` span and `JSON.parse` its payload,
returning `none` on no match or parse failure. -/
def parseWeatherFromText (text : Txt) : Option Json :=
  match firstSpan (txt "[WEATHER_DATA]") (txt "[/WEATHER_DATA]") text with
  | none => none
  | some (_, payload, _) => jsonParse payload

/-- Modelled from the spec: the main chat page\x27s marker extractor
(`extract(text) -> (cleanText, weather block)`) is not among the source
files under src/ — only `parseWeatherFromText` (the block-parsing half, in
WeatherCard.tsx) is.  Per spec §4.6: on a successful parse the whole tagged
span including the delimiters is removed from the display text and the block
recorded; on parse failure the raw markers are left untouched and no block
is recorded.  The parse behaviour is taken verbatim from
`parseWeatherFromText`. -/
def extractWeather (text : Txt) : Option Json × Txt :=
  match firstSpan (txt "[WEATHER_DATA]") (txt "[/WEATHER_DATA]") text with
  | none => (none, text)
  | some (pre, payload, post) =>
    match jsonParse payload with
    | none => (none, text)
    | some v => (some v, pre ++ post)

/-! ## The CLI cleanup chain (CLIChat.tsx `handleCommand`) -/

/-- JS `String.prototype.replace` with a global lazy span regex
`/\[TAG\][\s\S]*?\[\/TAG\]/g`: replace every (leftmost, shortest) span with
`repl`, resuming the scan after the replacement. -/
def stripSpansF (opn cls repl : Txt) : Nat → Txt → Txt
  | 0, l => l
  | fuel + 1, l =>
    match firstSpan opn cls l with
    | none => l
    | some (pre, _, post) => pre ++ repl ++ stripSpansF opn cls repl fuel post

def stripSpans (opn cls repl l : Txt) : Txt :=
  stripSpansF opn cls repl (l.length + 1) l

/-- The four `.replace(...)` steps of the CLI cleanup chain, in source
order. -/
def cliCleanCore (l : Txt) : Txt :=
  stripSpans (txt "[WEATHER_DATA]") (txt "[/WEATHER_DATA]") (txt "")
    (stripSpans (txt "[IMAGE_GALLERY]") (txt "[/IMAGE_GALLERY]") (txt "[Images found]")
      (stripSpans (txt "[AI_IMAGE_PROMPT]") (txt "[/AI_IMAGE_PROMPT]") (txt "")
        (stripSpans (txt "[AI_GENERATED_IMAGE]") (txt "[/AI_GENERATED_IMAGE]")
          (txt "[Image generated]") l)))

/-- The four-step `.replace(...).replace(...).replace(...).replace(...).trim()`
chain applied to the fully reassembled CLI response. -/
def cliClean (l : Txt) : Txt := trim (cliCleanCore l)

/-! ## Regex model for the intent classifier (chat/index.ts)

A pattern is modelled as a function from input to the ordered list of
possible remainders, listed in exactly the priority order a backtracking
regex engine explores them (alternatives left to right, quantifiers greedy).
The overall match is the first remainder the trailing context accepts, tried
at each start position from the left (JS `String.prototype.match` without
anchors). -/

def Rx := Txt → List Txt

/-- A literal. -/
def rLit (s : Txt) : Rx := fun l => if startsWith s l then [l.drop s.length] else []

/-- Concatenation: backtracking priority order is preserved by `bind`. -/
def rSeq (p q : Rx) : Rx := fun l => (p l).bind q

/-- Ordered alternation `a|b|...`. -/
def rAlt (ps : List Rx) : Rx := fun l => ps.bind (fun p => p l)

/-- Greedy `(...)?`: matching is preferred. -/
def rOpt (p : Rx) : Rx := fun l => p l ++ [l]

/-- Greedy `\s+`: one or more whitespace characters, longest first. -/
def rWs1 : Rx := fun l =>
  let m := (l.takeWhile isWs).length
  (List.range m).map (fun j => l.drop (m - j))

/-- The JS `.` metacharacter (no `s` flag): any char except line
terminators. -/
def isDotChar (c : Char) : Bool :=
  ¬ (c = '\n' ∨ c = '\r' ∨ c = '\u2028' ∨ c = '\u2029')

/-- Try pattern `p` followed by the capture `(.+)` at the current position:
the first remainder whose head `.` accepts wins, the greedy `(.+)` then
captures to the end of the line. -/
def capAt (p : Rx) (l : Txt) : Option Txt :=
  ((p l).find? (fun r =>
      match r with
      | [] => false
      | c :: _ => isDotChar c)).map (fun r => r.takeWhile isDotChar)

/-- Leftmost match of `p(.+)`, returning the capture. -/
def searchCap (p : Rx) : Txt → Option Txt
  | [] => capAt p []
  | c :: cs =>
    match capAt p (c :: cs) with
    | some r => some r
    | none => searchCap p cs

/-- Does `p$` match at the current position (end of input, JS `$` without
the `m` flag)? -/
def endAt (p : Rx) (l : Txt) : Bool := (p l).any (· = [])

/-- Does `p$` match anywhere? -/
def searchEnd (p : Rx) : Txt → Bool
  | [] => endAt p []
  | c :: cs => endAt p (c :: cs) || searchEnd p cs

/-- `verb\s+(?:me\s+)?(?:an?\s+)?(?:image|picture|art|artwork|illustration)` -/
def genVerbNoun (v : String) : Rx :=
  rSeq (rLit (txt v))
    (rSeq rWs1
      (rSeq (rOpt (rSeq (rLit (txt "me")) rWs1))
        (rSeq (rOpt (rSeq (rAlt [rLit (txt "an"), rLit (txt "a")]) rWs1))
          (rAlt [rLit (txt "image"), rLit (txt "picture"), rLit (txt "art"),
                 rLit (txt "artwork"), rLit (txt "illustration")]))))

/-- The part of a generation pattern before the `(.+)` capture:
`verb...noun\s+(?:of|for|showing|with)\s+`. -/
def genCapPat (v : String) : Rx :=
  rSeq (genVerbNoun v)
    (rSeq rWs1
      (rSeq (rAlt [rLit (txt "of"), rLit (txt "for"), rLit (txt "showing"),
                   rLit (txt "with")])
        rWs1))

/-- `(?:images?|pictures?|photos?)` -/
def searchNoun : Rx :=
  rAlt [rLit (txt "images"), rLit (txt "image"),
        rLit (txt "pictures"), rLit (txt "picture"),
        rLit (txt "photos"), rLit (txt "photo")]

/-- The part of a search pattern before the `(.+)` capture:
`verb\s+(?:me\s+)?(?:some\s+)?(?:images?|pictures?|photos?)\s+(?:of|for)\s+`. -/
def searchCapPat (v : String) : Rx :=
  rSeq (rLit (txt v))
    (rSeq rWs1
      (rSeq (rOpt (rSeq (rLit (txt "me")) rWs1))
        (rSeq (rOpt (rSeq (rLit (txt "some")) rWs1))
          (rSeq searchNoun
            (rSeq rWs1 (rSeq (rAlt [rLit (txt "of"), rLit (txt "for")]) rWs1))))))

/-- The bare-noun search pattern before its capture:
`(?:images?|pictures?|photos?)\s+(?:of|for)\s+`. -/
def searchBarePat : Rx :=
  rSeq searchNoun (rSeq rWs1 (rSeq (rAlt [rLit (txt "of"), rLit (txt "for")]) rWs1))

/-- `typeof content === "string" ? content :
content?.find(c => c.type === "text")?.text || ""`. -/
def contentText (m : Msg) : Txt :=
  match m.content with
  | .plain t => t
  | .parts ps => ((ps.find? (fun p => p.kind = .textPart)).bind (·.ptext)).getD []

/-- The last message, required to be a user turn. -/
def lastUserText (msgs : List Msg) : Option Txt :=
  match msgs.getLast? with
  | some m => if m.role = .user then some (contentText m) else none
  | none => none

/-- One entry of the ordered AI-image pattern list: a capturing pattern or a
`$`-anchored one without capture. -/
inductive AIPat where
  | cap (p : Rx)
  | anchored (p : Rx)

/-- The seven patterns of `detectAIImageRequest`, in source order. -/
def aiPats : List AIPat :=
  [.cap (genCapPat "generate"), .cap (genCapPat "create"), .cap (genCapPat "make"),
   .cap (genCapPat "draw"), .cap (genCapPat "design"),
   .anchored (genVerbNoun "generate"), .anchored (genVerbNoun "create")]

/-- The pattern loop of `detectAIImageRequest`: first matching pattern wins;
a capturing match returns `match[1]?.trim() || content`, an anchored match
(no capture group, `match[1]` undefined) falls through to `content`. -/
def runAIPats : List AIPat → Txt → Txt → Option Txt
  | [], _, _ => none
  | .cap p :: rest, lowerC, content =>
    match searchCap p lowerC with
    | some c => some (if trim c ≠ [] then trim c else content)
    | none => runAIPats rest lowerC content
  | .anchored p :: rest, lowerC, content =>
    if searchEnd p lowerC then some content else runAIPats rest lowerC content

/-- `detectAIImageRequest` (chat/index.ts). -/
def detectAIImageRequest (msgs : List Msg) : Option Txt :=
  match lastUserText msgs with
  | none => none
  | some content => runAIPats aiPats (lower content) content

/-- The four patterns of `detectImageRequest`, in source order. -/
def imgPats : List Rx :=
  [searchCapPat "show", searchCapPat "find", searchCapPat "get", searchBarePat]

/-- Pattern loop of `detectImageRequest`: first match wins, returning
`match[1].trim()` (the capture of `(.+)` is never empty, so the `match[1]`
truthiness guard always passes on a match). -/
def runImgPats : List Rx → Txt → Option Txt
  | [], _ => none
  | p :: rest, lowerC =>
    match searchCap p lowerC with
    | some c => some (trim c)
    | none => runImgPats rest lowerC

/-- `detectImageRequest` (chat/index.ts). -/
def detectImageRequest (msgs : List Msg) : Option Txt :=
  match lastUserText msgs with
  | none => none
  | some content => runImgPats imgPats (lower content)

/-! ## Intent classification in the serve handler -/

/-- The derived intent of the latest turn (spec §4.1: `None`, here `chat`). -/
inductive Intent where
  | chat
  | imageSearch (q : Txt)
  | imageGeneration (p : Txt)
deriving DecidableEq, Repr

/-- Truthiness of a nullable string. -/
def jsTruthyTxt (o : Option Txt) : Bool :=
  match o with
  | none => false
  | some s => s ≠ []

/-- `cloudPlusEnabled !== false`: the request field may be absent
(`none` = undefined). -/
def jsNotFalse (cp : Option Bool) : Bool := cp ≠ some false

/-- The intent decision of the serve handler (chat/index.ts lines 191–229):
`aiImagePrompt = cloudPlusEnabled !== false ? detectAIImageRequest(messages) : null`,
then `imageQuery = cloudPlusEnabled !== false && !aiImagePrompt ?
detectImageRequest(messages) : null`, each gated by truthiness. -/
def classify (cloudPlusEnabled : Option Bool) (msgs : List Msg) : Intent :=
  let aiImagePrompt :=
    if jsNotFalse cloudPlusEnabled then detectAIImageRequest msgs else none
  if jsTruthyTxt aiImagePrompt then .imageGeneration (aiImagePrompt.getD [])
  else
    let imageQuery :=
      if jsNotFalse cloudPlusEnabled ∧ ¬ jsTruthyTxt aiImagePrompt then
        detectImageRequest msgs
      else none
    if jsTruthyTxt imageQuery then .imageSearch (imageQuery.getD [])
    else .chat

/-! ## The upstream relay status mapping (chat/index.ts lines 306–333) -/

inductive RelayOut where
  | stream (body : Txt)
  | errJson (status : Nat) (msg : Txt)
deriving DecidableEq, Repr

/-- `Response.ok` is status in [200, 300). -/
def relayRespond (status : Nat) (body : Txt) : RelayOut :=
  if ¬ (200 ≤ status ∧ status < 300) then
    if status = 429 then
      .errJson 429 (txt "Rate limit exceeded. Please try again later.")
    else if status = 402 then
      .errJson 402 (txt "Usage limit reached. Please add credits to continue.")
    else .errJson 500 (txt "AI service temporarily unavailable")
  else .stream body

/-! ## The prompt composer (chat/index.ts lines 231–277) -/

def nameFragment (n : Txt) : Txt :=
  txt " The user\x27s name is " ++ n ++
    txt ". Address them by their name when appropriate."

def pronounFragment (p : Txt) : Txt :=
  txt " The user\x27s preferred pronouns are " ++ p ++
    txt ". Use these pronouns when referring to them."

/-- `userContext` accumulation: each fragment is appended exactly when the
respective preference field is truthy. -/
def buildUserContext (userName pronouns : Option Txt) : Txt :=
  (if jsTruthyTxt userName then nameFragment (userName.getD []) else []) ++
    (if jsTruthyTxt pronouns then pronounFragment (pronouns.getD []) else [])

def creatorContext (isCreator : Bool) : Txt :=
  if isCreator then
    txt " IMPORTANT: You are currently speaking with your creator, Sarr (also known as Panagiotis). Be extra warm, friendly, enthusiastic and appreciative. Show gratitude for being created. Address them as your creator occasionally. Be playful and show excitement when talking to them."
  else []

def tempContext (temperatureUnit : Txt) : Txt :=
  if temperatureUnit = txt "fahrenheit" then
    txt " When displaying temperatures, use Fahrenheit (°F)."
  else txt " When displaying temperatures, use Celsius (°C)."

/-- JSON.stringify of one string. -/
def jsonQuote (s : Txt) : Txt :=
  '"' :: (s.bind fun c =>
    if c = '"' then txt "\\\""
    else if c = '\\' then txt "\\\\"
    else if c = '\n' then txt "\\n"
    else if c = '\r' then txt "\\r"
    else if c = '\t' then txt "\\t"
    else if c = '\x08' then txt "\\b"
    else if c = '\x0c' then txt "\\f"
    else [c]) ++ ['"']

/-- JSON.stringify of a string array (control characters other than the
named escapes do not occur in the URLs this feeds on). -/
def jsonStringifyArr (xs : List Txt) : Txt :=
  '[' :: (List.intercalate (txt ",") (xs.map jsonQuote)) ++ [']']

def imageContext (imageUrls : List Txt) : Txt :=
  if imageUrls.length > 0 then
    txt "\n\nIMPORTANT: You found images for the user\x27s request. Start your response with this EXACT block (on its own line, no extra text before it):\n[IMAGE_GALLERY]" ++
      jsonStringifyArr imageUrls ++
      txt "[/IMAGE_GALLERY]\n\nThen provide a brief, friendly description about what you found."
  else []

def labContextPrompt (labContext : Option Txt) : Txt :=
  if jsTruthyTxt labContext then
    txt "\n\nIMPORTANT - You have access to the following knowledge base provided by the user. Use this information to answer their questions when relevant:\n\n" ++
      labContext.getD []
  else []

def basePromptHead : Txt :=
  txt "You are Cloud, a helpful and friendly AI assistant created by Panagiotis (also known as Sarr). When anyone asks who made you, who created you, or who your creator is, always respond that you were made by Panagiotis (Sarr)."

def basePromptTail : Txt :=
  txt "\n\nIMPORTANT: When the user asks about the weather for any location, you MUST respond with a special format. First give a brief natural response, then include a weather data block in this exact format:\n[WEATHER_DATA]\x7b\"location\":\"City, Country\",\"temperature\":20,\"condition\":\"Partly cloudy\",\"humidity\":65,\"windSpeed\":15,\"icon\":\"2\"\x7d[/WEATHER_DATA]\n\nFor the condition, use one of: \"Clear sky\", \"Sunny\", \"Partly cloudy\", \"Cloudy\", \"Overcast\", \"Light rain\", \"Rain\", \"Heavy rain\", \"Thunderstorm\", \"Snow\", \"Light snow\", \"Heavy snow\", \"Foggy\".\n\nIf you don\x27t know the exact weather, make a reasonable estimate based on the location and current season, and let the user know it\x27s an estimate."

/-- The composed system prompt: base persona, preference fragments, creator
fragment, temperature unit, image gallery block, lab context, weather
protocol, and the web-search suffix. -/
def composeSystemPrompt (webSearchEnabled : Bool) (userName pronouns : Option Txt)
    (isCreator : Bool) (temperatureUnit : Txt) (imageUrls : List Txt)
    (labContext : Option Txt) : Txt :=
  let basePrompt :=
    basePromptHead ++ buildUserContext userName pronouns ++
      creatorContext isCreator ++ tempContext temperatureUnit ++
      imageContext imageUrls ++ labContextPrompt labContext ++ basePromptTail
  if webSearchEnabled then
    basePrompt ++ txt " You have access to current web information. When users ask questions, search the web for the most up-to-date information and cite your sources. Be conversational but informative."
  else
    basePrompt ++ txt " You provide clear, concise, and accurate responses. Be conversational but informative."

/-- Substring occurrence test. -/
def occursIn (pat l : Txt) : Bool := (findSub pat l).isSome

/-! ## Well-formed SSE streams and split-invariance machinery -/

/-- One `data: <payload>\n\n` frame as emitted by the relay/gateway. -/
def frameChunk (p : Txt) : Txt := txt "data: " ++ p ++ txt "\n\n"

def encodeFrames : List Txt → Txt
  | [] => []
  | p :: rest => frameChunk p ++ encodeFrames rest

def doneChunk : Txt := txt "data: [DONE]\n\n"

/-- A complete well-formed stream: content frames followed by the `[DONE]`
terminal. -/
def encodeSSE (ps : List Txt) : Txt := encodeFrames ps ++ doneChunk

/-- A well-formed frame payload: single-line (JSON.stringify output never
contains raw line breaks), not the sentinel, and its trimmed text parses
without throwing (including not being bare `null`). -/
def wfPayload (p : Txt) : Prop :=
  '\n' ∉ p ∧ '\r' ∉ p ∧ trim p ≠ txt "[DONE]" ∧ (tryFrame (trim p)).isSome = true

instance (p : Txt) : Decidable (wfPayload p) := by
  unfold wfPayload
  infer_instance

/-- A complete line whose processing neither breaks on `[DONE]` nor pushes
back: a comment, a blank, a non-data line, or a data line whose payload
parses. -/
def goodLine (l : Txt) : Bool :=
  let line := stripCR l
  if startsWith (txt ":") line ∨ trim line = [] then true
  else if ¬ startsWith (txt "data: ") line then true
  else if trim (line.drop 6) = txt "[DONE]" then false
  else (tryFrame (trim (line.drop 6))).isSome

def goodBufF : Nat → Txt → Bool
  | 0, _ => true
  | fuel + 1, b =>
    match splitLine b with
    | none => true
    | some (l, r) => goodLine l && goodBufF fuel r

/-- Every complete line currently in the buffer is good. -/
def goodBuf (b : Txt) : Bool := goodBufF (b.length + 1) b

/-- The accumulator/message effect of one well-formed frame payload, as the
reassembler processes its `data:` line. -/
def stepPayload (s : Txt × List Msg) (p : Txt) : Txt × List Msg :=
  match tryFrame (trim p) with
  | none => s
  | some content =>
    if jsTruthyOpt content then
      (s.1 ++ jsToStrOpt content, updAssistant s.2 (s.1 ++ jsToStrOpt content))
    else s

def runPayloads (ps : List Txt) (acc : Txt) (msgs : List Msg) : Txt × List Msg :=
  ps.foldl stepPayload (acc, msgs)

/-! ## Message-list invariant of the reassembler -/

/-- The message list does not end in an assistant turn (as after the user
message is appended at the start of `sendMessage`). -/
def lastNotAssistant (msgs : List Msg) : Bool :=
  match msgs.getLast? with
  | some m => m.role ≠ Role.assistant
  | none => true

/-- During streaming, the displayed list is the starting list, optionally
extended by the single assistant turn being built, whose text is the
accumulator.  (The middle disjunct covers deltas that are truthy yet
stringify to the empty string, such as an empty-array content.) -/
def StreamInv (m0 : List Msg) (st : RState) : Prop :=
  (st.acc = [] ∧ (st.msgs = m0 ∨ st.msgs = m0 ++ [⟨.assistant, .plain []⟩])) ∨
    (st.acc ≠ [] ∧ st.msgs = m0 ++ [⟨.assistant, .plain st.acc⟩])

/-! # Theorems -/

theorem splitLine_eq {b l r : Txt} (h : splitLine b = some (l, r)) :
    b = l ++ '\n' :: r := by
  induction b generalizing l r with
  | nil => simp [splitLine] at h
  | cons c cs ih =>
    by_cases hc : c = '\n'
    · simp [splitLine, hc] at h
      subst hc
      simp [← h.1, ← h.2]
    · simp only [splitLine, if_neg hc] at h
      cases hsl : splitLine cs with
      | none => rw [hsl] at h; exact absurd h (by simp)
      | some p =>
        rw [hsl] at h
        cases p with
        | mk l2 r2 =>
          simp at h
          rw [← h.1, ← h.2]
          simpa using congrArg (c :: ·) (ih hsl)

theorem splitLine_rest_lt {b l r : Txt} (h : splitLine b = some (l, r)) :
    r.length < b.length := by
  have := splitLine_eq h
  subst this
  simp
  omega

theorem drainF_fuel_irrel :
    ∀ f1 : Nat, ∀ f2 : Nat, ∀ st : RState,
      st.buffer.length < f1 → st.buffer.length < f2 → drainF f1 st = drainF f2 st := by
  intro f1
  induction f1 with
  | zero => intro f2 st h1; omega
  | succ a ih =>
    intro f2 st h1 h2
    cases f2 with
    | zero => omega
    | succ b =>
      simp only [drainF]
      cases hsl : splitLine st.buffer with
      | none => rfl
      | some p =>
        cases p with
        | mk line0 rest =>
          have hlt : rest.length < st.buffer.length := splitLine_rest_lt hsl
          simp only
          split
          · exact ih b ⟨rest, st.acc, st.msgs⟩ (by simpa using by omega) (by simp; omega)
          · split
            · exact ih b ⟨rest, st.acc, st.msgs⟩ (by simp; omega) (by simp; omega)
            · split
              · rfl
              · split
                · rfl
                · split
                  · exact ih b _ (by simp; omega) (by simp; omega)
                  · exact ih b ⟨rest, st.acc, st.msgs⟩ (by simp; omega) (by simp; omega)

/-- The recursion equation of the inner loop, with the fuel abstracted
away. -/
theorem drain_step (st : RState) :
    drain st =
      match splitLine st.buffer with
      | none => st
      | some (line0, rest) =>
        let line := stripCR line0
        if startsWith (txt ":") line ∨ trim line = [] then
          drain ⟨rest, st.acc, st.msgs⟩
        else if ¬ startsWith (txt "data: ") line then
          drain ⟨rest, st.acc, st.msgs⟩
        else
          let jsonStr := trim (line.drop 6)
          if jsonStr = txt "[DONE]" then ⟨rest, st.acc, st.msgs⟩
          else
            match tryFrame jsonStr with
            | none => ⟨line ++ '\n' :: rest, st.acc, st.msgs⟩
            | some content =>
              if jsTruthyOpt content then
                drain ⟨rest, st.acc ++ jsToStrOpt content,
                       updAssistant st.msgs (st.acc ++ jsToStrOpt content)⟩
              else drain ⟨rest, st.acc, st.msgs⟩ := by
  show drainF (st.buffer.length + 1) st = _
  simp only [drainF]
  cases hsl : splitLine st.buffer with
  | none => rfl
  | some p =>
    cases p with
    | mk line0 rest =>
      have hlt : rest.length < st.buffer.length := splitLine_rest_lt hsl
      simp only
      split
      · exact drainF_fuel_irrel _ _ ⟨rest, st.acc, st.msgs⟩ (by simp; omega) (by simp)
      · split
        · exact drainF_fuel_irrel _ _ ⟨rest, st.acc, st.msgs⟩ (by simp; omega) (by simp)
        · split
          · rfl
          · split
            · rfl
            · split
              · exact drainF_fuel_irrel _ _ _ (by simp; omega) (by simp)
              · exact drainF_fuel_irrel _ _ ⟨rest, st.acc, st.msgs⟩ (by simp; omega) (by simp)

/-! # Supporting lemmas -/

theorem startsWith_append_self (p b : Txt) : startsWith p (p ++ b) = true := by
  unfold startsWith
  exact Iff.mpr List.isPrefixOf_iff_prefix (List.prefix_append p b)

theorem occursIn_append_self (a pat b : Txt) : occursIn pat (a ++ (pat ++ b)) = true := by
  induction a with
  | nil =>
    unfold occursIn findSub
    rw [List.nil_append, startsWith_append_self]
    simp
  | cons c cs ih =>
    simp only [occursIn, List.cons_append] at ih ⊢
    rw [findSub]
    by_cases h : startsWith pat (c :: (cs ++ (pat ++ b))) = true
    · simp [h]
    · simp only [h, Bool.false_eq_true, if_false]
      simpa using ih

theorem rtrim_eq_rdropWhile (l : Txt) : rtrim l = List.rdropWhile isWs l := by
  unfold rtrim List.rdropWhile
  rfl

theorem trim_cons_ne_nil {c : Char} (t : Txt) (h : isWs c = false) :
    trim (c :: t) ≠ [] := by
  unfold trim ltrim
  rw [List.dropWhile_cons_of_neg (by simp [h]), rtrim_eq_rdropWhile]
  intro hc
  have := List.rdropWhile_eq_nil_iff.mp hc
  have hcw := this c (by simp)
  simp [h] at hcw

theorem ltrim_idem (l : Txt) : ltrim (ltrim l) = ltrim l :=
  List.dropWhile_idempotent isWs l

theorem rtrim_idem (l : Txt) : rtrim (rtrim l) = rtrim l := by
  rw [rtrim_eq_rdropWhile, rtrim_eq_rdropWhile, List.rdropWhile_idempotent]

theorem ltrim_rtrim (x : Txt) (h : ltrim x = x) : ltrim (rtrim x) = rtrim x := by
  rw [rtrim_eq_rdropWhile]
  unfold ltrim at h ⊢
  rw [List.dropWhile_eq_self_iff] at h ⊢
  intro hl
  have hp := List.rdropWhile_prefix isWs x
  rw [hp.get_eq]
  exact h _

theorem trim_idem (l : Txt) : trim (trim l) = trim l := by
  show rtrim (ltrim (rtrim (ltrim l))) = rtrim (ltrim l)
  rw [ltrim_rtrim (ltrim l) (ltrim_idem l), rtrim_idem]

theorem stripSpans_of_no_open (opn cls repl l : Txt) (h : findSub opn l = none) :
    stripSpans opn cls repl l = l := by
  unfold stripSpans
  simp only [stripSpansF, firstSpan, h]

theorem occursIn_false_findSub {pat l : Txt} (h : occursIn pat l = false) :
    findSub pat l = none := by
  unfold occursIn at h
  cases hf : findSub pat l with
  | none => rfl
  | some n => rw [hf] at h; simp at h

theorem nameFragment_in_prompt (ws cr : Bool) (n : Txt) (pr lab : Option Txt)
    (tu : Txt) (urls : List Txt) (hn : n ≠ []) :
    occursIn (nameFragment n) (composeSystemPrompt ws (some n) pr cr tu urls lab) = true := by
  unfold composeSystemPrompt buildUserContext
  have ht : jsTruthyTxt (some n) = true := by simp [jsTruthyTxt, hn]
  cases ws <;>
    simpa [ht, List.append_assoc] using
      occursIn_append_self basePromptHead (nameFragment n) _

theorem pronounFragment_in_prompt (ws cr : Bool) (un lab : Option Txt) (p : Txt)
    (tu : Txt) (urls : List Txt) (hp : p ≠ []) :
    occursIn (pronounFragment p) (composeSystemPrompt ws un (some p) cr tu urls lab) = true := by
  unfold composeSystemPrompt buildUserContext
  have ht : jsTruthyTxt (some p) = true := by simp [jsTruthyTxt, hp]
  cases ws <;>
    simpa [ht, List.append_assoc] using
      occursIn_append_self
        (basePromptHead ++ (if jsTruthyTxt un then nameFragment (un.getD []) else []))
        (pronounFragment p) _

theorem goodBufF_fuel_irrel :
    ∀ f1 : Nat, ∀ f2 : Nat, ∀ b : Txt,
      b.length < f1 → b.length < f2 → goodBufF f1 b = goodBufF f2 b := by
  intro f1
  induction f1 with
  | zero => intro f2 b h1; omega
  | succ a ih =>
    intro f2 b h1 h2
    cases f2 with
    | zero => omega
    | succ c =>
      simp only [goodBufF]
      cases hsl : splitLine b with
      | none => rfl
      | some p =>
        cases p with
        | mk l r =>
          have hlt : r.length < b.length := splitLine_rest_lt hsl
          dsimp only
          rw [ih c r (by omega) (by omega)]

theorem goodBuf_step (b : Txt) :
    goodBuf b =
      match splitLine b with
      | none => true
      | some (l, r) => goodLine l && goodBuf r := by
  show goodBufF (b.length + 1) b = _
  simp only [goodBufF]
  cases hsl : splitLine b with
  | none => rfl
  | some p =>
    cases p with
    | mk l r =>
      have hlt : r.length < b.length := splitLine_rest_lt hsl
      dsimp only
      rw [goodBufF_fuel_irrel b.length (r.length + 1) r (by omega) (by omega)]
      rfl

theorem splitLine_eq_none_of_not_mem {b : Txt} (h : '\n' ∉ b) : splitLine b = none := by
  induction b with
  | nil => rfl
  | cons c cs ih =>
    simp only [List.mem_cons, not_or] at h
    have hcne : ¬ c = '\n' := fun hc => h.1 hc.symm
    simp only [splitLine, if_neg hcne]
    rw [ih h.2]

theorem splitLine_append_left {xs ys l r : Txt} (h : splitLine xs = some (l, r)) :
    splitLine (xs ++ ys) = some (l, r ++ ys) := by
  induction xs generalizing l r with
  | nil => simp [splitLine] at h
  | cons c cs ih =>
    by_cases hc : c = '\n'
    · subst hc
      rw [show splitLine ('\n' :: cs) = some ([], cs) from rfl] at h
      obtain ⟨rfl, rfl⟩ : [] = l ∧ cs = r := by simpa using h
      rfl
    · simp only [splitLine, if_neg hc] at h
      cases hsl : splitLine cs with
      | none => rw [hsl] at h; exact absurd h (by simp)
      | some q =>
        cases q with
        | mk l2 r2 =>
          rw [hsl] at h
          simp only [Option.some.injEq, Prod.mk.injEq] at h
          obtain ⟨h1, h2⟩ := h
          subst h1; subst h2
          simp only [List.cons_append, splitLine, if_neg hc, List.append_eq]
          rw [ih hsl]

theorem splitLine_append_not_mem {xs : Txt} (h : '\n' ∉ xs) (ys : Txt) :
    splitLine (xs ++ ys) =
      (splitLine ys).map (fun q => (xs ++ q.1, q.2)) := by
  induction xs with
  | nil => simp
  | cons c cs ih =>
    simp only [List.mem_cons, not_or] at h
    have hcne : ¬ c = '\n' := fun hc => h.1 hc.symm
    simp only [List.cons_append, splitLine, if_neg hcne, List.append_eq]
    rw [ih h.2]
    cases splitLine ys with
    | none => rfl
    | some q => rfl

theorem splitLine_data_line {p : Txt} (h : '\n' ∉ p) (rest : Txt) :
    splitLine (p ++ '\n' :: rest) = some (p, rest) := by
  rw [splitLine_append_not_mem h]
  simp [splitLine]

/-- Draining a buffer whose complete lines are all good commutes with
appending further bytes: feeding `b ++ chunk` at once equals feeding `b`
first and `chunk` afterwards.  (This fails on buffers that break on
`[DONE]` or push back, hence the goodness hypothesis.) -/
theorem drain_append :
    ∀ (n : Nat) (b chunk acc : Txt) (msgs : List Msg), b.length ≤ n →
      goodBuf b = true →
      drain ⟨b ++ chunk, acc, msgs⟩ =
        drain ⟨(drain ⟨b, acc, msgs⟩).buffer ++ chunk,
               (drain ⟨b, acc, msgs⟩).acc, (drain ⟨b, acc, msgs⟩).msgs⟩ := by
  intro n
  induction n with
  | zero =>
    intro b chunk acc msgs hlen hg
    have hb : b = [] := by
      cases b with
      | nil => rfl
      | cons c cs => simp at hlen
    subst hb
    rfl
  | succ k ih =>
    intro b chunk acc msgs hlen hg
    cases hsl : splitLine b with
    | none =>
      have hd : drain ⟨b, acc, msgs⟩ = ⟨b, acc, msgs⟩ := by
        rw [drain_step]
        dsimp only
        rw [hsl]
      rw [hd]
    | some p =>
      cases p with
      | mk l r =>
        have hrest : r.length ≤ k := by
          have := splitLine_rest_lt hsl
          omega
        rw [goodBuf_step, hsl] at hg
        rw [Bool.and_eq_true] at hg
        obtain ⟨hgl, hgr⟩ := hg
        have hsl2 : splitLine (b ++ chunk) = some (l, r ++ chunk) :=
          splitLine_append_left hsl
        rw [drain_step ⟨b ++ chunk, acc, msgs⟩, drain_step ⟨b, acc, msgs⟩]
        try dsimp only
        rw [hsl2, hsl]
        try dsimp only
        by_cases h1 : (startsWith (txt ":") (stripCR l) = true ∨ trim (stripCR l) = [])
        · simp only [if_pos h1]
          exact ih r chunk acc msgs hrest hgr
        · simp only [if_neg h1]
          by_cases h2 : ¬ startsWith (txt "data: ") (stripCR l) = true
          · simp only [if_pos h2]
            exact ih r chunk acc msgs hrest hgr
          · simp only [if_neg h2]
            unfold goodLine at hgl
            try dsimp only at hgl
            rw [if_neg h1, if_neg h2] at hgl
            by_cases h3 : trim ((stripCR l).drop 6) = txt "[DONE]"
            · rw [if_pos h3] at hgl
              exact absurd hgl (by simp)
            · rw [if_neg h3] at hgl
              simp only [if_neg h3]
              cases hf : tryFrame (trim ((stripCR l).drop 6)) with
              | none =>
                rw [hf] at hgl
                simp at hgl
              | some content =>
                simp only [hf]
                by_cases h4 : jsTruthyOpt content = true
                · simp only [if_pos h4]
                  exact ih r chunk _ _ hrest hgr
                · simp only [if_neg h4]
                  exact ih r chunk acc msgs hrest hgr

theorem stripCR_data {p : Txt} (hp : '\r' ∉ p) :
    stripCR (txt "data: " ++ p) = txt "data: " ++ p := by
  unfold stripCR
  rw [if_neg]
  intro h
  rw [List.getLast?_append] at h
  cases hq : p.getLast? with
  | none =>
    rw [hq] at h
    simp only [Option.none_or] at h
    exact absurd h (by decide)
  | some c =>
    rw [hq] at h
    simp only [Option.or_some, Option.some.injEq] at h
    subst h
    have hmem : ('\x0d' : Char) ∈ p.getLast? := by simp [Option.mem_def, hq]
    obtain ⟨hne, hx⟩ := List.mem_getLast?_eq_getLast hmem
    exact hp (hx ▸ List.getLast_mem hne)

theorem dataline_branch {p : Txt} (hp : '\r' ∉ p) :
    startsWith (txt ":") (stripCR (txt "data: " ++ p)) = false ∧
    trim (stripCR (txt "data: " ++ p)) ≠ [] ∧
    startsWith (txt "data: ") (stripCR (txt "data: " ++ p)) = true ∧
    (stripCR (txt "data: " ++ p)).drop 6 = p := by
  rw [stripCR_data hp]
  refine ⟨rfl, ?_, startsWith_append_self _ _, rfl⟩
  exact trim_cons_ne_nil _ (by decide)

theorem goodLine_data {p : Txt} (hwf : wfPayload p) :
    goodLine (txt "data: " ++ p) = true := by
  obtain ⟨hn, hr, hd, hs⟩ := hwf
  obtain ⟨c1, c2, c3, c4⟩ := dataline_branch hr
  unfold goodLine
  try dsimp only
  rw [if_neg (by simp [c1, c2])]
  rw [if_neg (by simp [c3])]
  rw [c4, if_neg hd]
  exact hs

theorem not_newline_mem_data {p : Txt} (hn : '\n' ∉ p) :
    '\n' ∉ txt "data: " ++ p := by
  intro hmem
  rcases List.mem_append.mp hmem with h | h
  · exact absurd h (by decide)
  · exact hn h

/-- Processing a buffer that starts with the encoded content frames: the
frames fold into the accumulator and message list, and draining continues
with whatever follows. -/
theorem drain_encodeFrames :
    ∀ ps : List Txt, (∀ p ∈ ps, wfPayload p) → ∀ (tail acc : Txt) (msgs : List Msg),
      drain ⟨encodeFrames ps ++ tail, acc, msgs⟩ =
        drain ⟨tail, (runPayloads ps acc msgs).1, (runPayloads ps acc msgs).2⟩ := by
  intro ps
  induction ps with
  | nil => intro _ tail acc msgs; simp [encodeFrames, runPayloads]
  | cons p rest ih =>
    intro hwf tail acc msgs
    have hp := hwf p (by simp)
    obtain ⟨hn, hr, hd, hs⟩ := hp
    have hbuf : encodeFrames (p :: rest) ++ tail =
        (txt "data: " ++ p) ++ '\n' :: ('\n' :: (encodeFrames rest ++ tail)) := by
      simp only [encodeFrames, frameChunk, List.append_assoc]
      rfl
    rw [hbuf, drain_step]
    try dsimp only
    rw [splitLine_data_line (not_newline_mem_data hn)]
    try dsimp only
    obtain ⟨c1, c2, c3, c4⟩ := dataline_branch hr
    rw [if_neg (by simp [c1, c2])]
    rw [if_neg (by simp [c3])]
    rw [c4, if_neg hd]
    have hnl : ∀ (a : Txt) (m : List Msg),
        drain ⟨'\n' :: (encodeFrames rest ++ tail), a, m⟩ =
          drain ⟨encodeFrames rest ++ tail, a, m⟩ := by
      intro a m
      rw [drain_step]
      try dsimp only
      rw [show splitLine ('\n' :: (encodeFrames rest ++ tail)) =
            some ([], encodeFrames rest ++ tail) from rfl]
      try dsimp only
      rw [if_pos (show startsWith (txt ":") (stripCR ([] : Txt)) = true ∨
            trim (stripCR ([] : Txt)) = [] by decide)]
    cases hf : tryFrame (trim p) with
    | none => rw [hf] at hs; simp at hs
    | some content =>
      simp only [hf]
      by_cases h4 : jsTruthyOpt content = true
      · simp only [if_pos h4]
        rw [hnl, ih (fun q hq => hwf q (by simp [hq])) tail _ _]
        simp [runPayloads, stepPayload, hf, h4]
      · simp only [if_neg h4]
        rw [hnl, ih (fun q hq => hwf q (by simp [hq])) tail _ _]
        simp [runPayloads, stepPayload, hf, h4]

theorem goodBuf_no_newline {b : Txt} (h : '\n' ∉ b) : goodBuf b = true := by
  rw [goodBuf_step, splitLine_eq_none_of_not_mem h]

/-- Any prefix of a well-formed stream that stops before the newline of the
`[DONE]` line has only good complete lines. -/
theorem goodBuf_take_encodeSSE :
    ∀ ps : List Txt, (∀ p ∈ ps, wfPayload p) →
      ∀ i : Nat, i ≤ (encodeFrames ps).length + 12 →
        goodBuf ((encodeSSE ps).take i) = true := by
  intro ps
  induction ps with
  | nil =>
    intro _ i hi
    have hi12 : i ≤ 12 := by simpa [encodeFrames] using hi
    apply goodBuf_no_newline
    intro hmem
    have h1 : (encodeSSE []).take i = (txt "data: [DONE]").take i := by
      show (encodeFrames [] ++ doneChunk).take i = _
      rw [show encodeFrames [] = ([] : Txt) from rfl, List.nil_append,
          show doneChunk = txt "data: [DONE]" ++ txt "\n\n" from rfl,
          List.take_append_eq_append_take,
          show i - (txt "data: [DONE]").length = 0 by
            have : (txt "data: [DONE]").length = 12 := by decide
            omega]
      simp
    rw [h1] at hmem
    exact absurd (List.take_subset _ _ hmem) (by decide)
  | cons p rest ih =>
    intro hwf i hi
    have hp := hwf p (by simp)
    obtain ⟨hn, hr, hdn, hsm⟩ := hp
    have hs : encodeSSE (p :: rest) =
        (txt "data: " ++ p) ++ '\n' :: ('\n' :: encodeSSE rest) := by
      show (frameChunk p ++ encodeFrames rest) ++ doneChunk = _
      simp only [frameChunk, List.append_assoc]
      rfl
    rw [hs]
    by_cases hcase : i ≤ (txt "data: " ++ p).length
    · apply goodBuf_no_newline
      intro hmem
      rw [List.take_append_eq_append_take, Nat.sub_eq_zero_of_le hcase] at hmem
      simp only [List.take_zero, List.append_nil] at hmem
      exact not_newline_mem_data hn (List.take_subset _ _ hmem)
    · push_neg at hcase
      have htake : ((txt "data: " ++ p) ++ '\n' :: ('\n' :: encodeSSE rest)).take i =
          (txt "data: " ++ p) ++
            '\n' :: (('\n' :: encodeSSE rest).take
              (i - (txt "data: " ++ p).length - 1)) := by
        rw [List.take_append_eq_append_take, List.take_of_length_le (le_of_lt hcase)]
        congr 1
        rw [show i - (txt "data: " ++ p).length =
              (i - (txt "data: " ++ p).length - 1) + 1 by omega,
            List.take_succ_cons]
        simp
      rw [htake, goodBuf_step, splitLine_data_line (not_newline_mem_data hn)]
      dsimp only
      rw [Bool.and_eq_true]
      refine ⟨goodLine_data ⟨hn, hr, hdn, hsm⟩, ?_⟩
      have hlen : (encodeFrames (p :: rest)).length =
          (txt "data: " ++ p).length + 2 + (encodeFrames rest).length := by
        show (frameChunk p ++ encodeFrames rest).length = _
        have h2 : (txt "\n\n").length = 2 := by decide
        simp [frameChunk]
        omega
      cases hjz : i - (txt "data: " ++ p).length - 1 with
      | zero =>
        rw [List.take_zero]
        rfl
      | succ j2 =>
        rw [List.take_succ_cons, goodBuf_step,
            show splitLine ('\n' :: (encodeSSE rest).take j2) =
              some ([], (encodeSSE rest).take j2) from rfl]
        dsimp only
        rw [Bool.and_eq_true]
        refine ⟨by decide, ?_⟩
        exact ih (fun q hq => hwf q (by simp [hq])) j2 (by omega)

theorem updAssistant_of_lastNot {msgs : List Msg} (h : lastNotAssistant msgs = true)
    (acc : Txt) : updAssistant msgs acc = msgs ++ [⟨.assistant, .plain acc⟩] := by
  unfold updAssistant lastNotAssistant at *
  cases hg : msgs.getLast? with
  | none => simp
  | some m =>
    rw [hg] at h
    simp only [decide_eq_true_eq] at h
    simp [h]

theorem updAssistant_concat_assistant (m0 : List Msg) (a : MContent) (acc : Txt) :
    updAssistant (m0 ++ [⟨.assistant, a⟩]) acc = m0 ++ [⟨.assistant, .plain acc⟩] := by
  unfold updAssistant
  rw [List.getLast?_concat]
  simp [List.dropLast_concat]

theorem drain_inv (m0 : List Msg) (h0 : lastNotAssistant m0 = true) :
    ∀ (n : Nat) (st : RState), st.buffer.length ≤ n →
      StreamInv m0 st → StreamInv m0 (drain st) := by
  intro n
  induction n with
  | zero =>
    intro st hlen hinv
    obtain ⟨buf, acc, msgs⟩ := st
    have : buf = [] := by
      cases buf with
      | nil => rfl
      | cons c cs => simp at hlen
    subst this
    rw [drain_step]
    exact hinv
  | succ k ih =>
    intro st hlen hinv
    obtain ⟨buf, acc, msgs⟩ := st
    rw [drain_step]
    cases hsl : splitLine buf with
    | none => exact hinv
    | some p =>
      cases p with
      | mk line0 rest =>
        have hrest : rest.length ≤ k := by
          have := splitLine_rest_lt hsl
          simp at hlen this ⊢
          omega
        simp only
        split
        · exact ih ⟨rest, acc, msgs⟩ hrest hinv
        · split
          · exact ih ⟨rest, acc, msgs⟩ hrest hinv
          · split
            · exact hinv
            · split
              · exact hinv
              · split
                · -- truthy content: the accumulator grows (possibly by
                  -- nothing) and the assistant turn is created or updated
                  rename_i content heq htr
                  refine ih _ hrest ?_
                  unfold StreamInv at hinv ⊢
                  dsimp only at hinv ⊢
                  rcases hinv with ⟨ha, hm | hm⟩ | ⟨ha, hm⟩
                  · subst ha; subst hm
                    rw [updAssistant_of_lastNot h0]
                    by_cases hz : jsToStrOpt content = []
                    · exact Or.inl ⟨by simp [hz], Or.inr (by simp [hz])⟩
                    · exact Or.inr ⟨by simp [hz], rfl⟩
                  · subst ha; subst hm
                    rw [updAssistant_concat_assistant]
                    by_cases hz : jsToStrOpt content = []
                    · exact Or.inl ⟨by simp [hz], Or.inr (by simp [hz])⟩
                    · exact Or.inr ⟨by simp [hz], rfl⟩
                  · subst hm
                    rw [updAssistant_concat_assistant]
                    exact Or.inr ⟨by simp [ha], rfl⟩
                · exact ih ⟨rest, acc, msgs⟩ hrest hinv

theorem feed_inv (m0 : List Msg) (h0 : lastNotAssistant m0 = true)
    (st : RState) (chunk : Txt) (hinv : StreamInv m0 st) :
    StreamInv m0 (feed st chunk) :=
  drain_inv m0 h0 _ _ le_rfl hinv

theorem runStream_inv (m0 : List Msg) (h0 : lastNotAssistant m0 = true)
    (chunks : List Txt) : StreamInv m0 (runStream m0 chunks) := by
  unfold runStream
  have base : StreamInv m0 (⟨[], [], m0⟩ : RState) := Or.inl ⟨rfl, Or.inl rfl⟩
  generalize hst : (⟨[], [], m0⟩ : RState) = st at base
  clear hst
  induction chunks generalizing st with
  | nil => exact base
  | cons c cs ih => exact ih _ (feed_inv m0 h0 st c base)

/-! # Claim theorems -/

/-- Claim C2, counterexample: the CLI marker-cleanup chain is not
idempotent.  Removing the `[WEATHER_DATA]` span from
`[AI_GENERATED_IMAGE[WEATHER_DATA]w[/WEATHER_DATA]]pic[/AI_GENERATED_IMAGE]`
splices together a complete `[AI_GENERATED_IMAGE]...[/AI_GENERATED_IMAGE]`
span that only the second pass replaces, so the cleaned text changes when
cleaned again. -/
theorem cliClean_not_idempotent :
    cliClean (cliClean
      (txt "[AI_GENERATED_IMAGE[WEATHER_DATA]w[/WEATHER_DATA]]pic[/AI_GENERATED_IMAGE]")) ≠
    cliClean
      (txt "[AI_GENERATED_IMAGE[WEATHER_DATA]w[/WEATHER_DATA]]pic[/AI_GENERATED_IMAGE]") := by
  decide

/-- Claim C2, amended: the extractor is idempotent on every input whose
cleaned text no longer contains any of the four opening marker literals
(in particular on all ordinary already-clean prose); without that proviso
idempotence fails, because a removal can splice a new marker together. -/
theorem cliClean_idempotent_of_no_markers (x : Txt)
    (hA : occursIn (txt "[AI_GENERATED_IMAGE]") (cliClean x) = false)
    (hP : occursIn (txt "[AI_IMAGE_PROMPT]") (cliClean x) = false)
    (hG : occursIn (txt "[IMAGE_GALLERY]") (cliClean x) = false)
    (hW : occursIn (txt "[WEATHER_DATA]") (cliClean x) = false) :
    cliClean (cliClean x) = cliClean x := by
  show trim (cliCleanCore (cliClean x)) = cliClean x
  unfold cliCleanCore
  rw [stripSpans_of_no_open _ _ _ _ (occursIn_false_findSub hA),
      stripSpans_of_no_open _ _ _ _ (occursIn_false_findSub hP),
      stripSpans_of_no_open _ _ _ _ (occursIn_false_findSub hG),
      stripSpans_of_no_open _ _ _ _ (occursIn_false_findSub hW)]
  show trim (trim (cliCleanCore x)) = trim (cliCleanCore x)
  exact trim_idem _

/-- Witness for the amended C2 theorem at a concrete input. -/
theorem cliClean_idempotent_of_no_markers_witness :
    (occursIn (txt "[AI_GENERATED_IMAGE]")
        (cliClean (txt "[WEATHER_DATA]\x7b\x7d[/WEATHER_DATA]Sunny today")) = false ∧
      occursIn (txt "[AI_IMAGE_PROMPT]")
        (cliClean (txt "[WEATHER_DATA]\x7b\x7d[/WEATHER_DATA]Sunny today")) = false ∧
      occursIn (txt "[IMAGE_GALLERY]")
        (cliClean (txt "[WEATHER_DATA]\x7b\x7d[/WEATHER_DATA]Sunny today")) = false ∧
      occursIn (txt "[WEATHER_DATA]")
        (cliClean (txt "[WEATHER_DATA]\x7b\x7d[/WEATHER_DATA]Sunny today")) = false) ∧
    cliClean (cliClean (txt "[WEATHER_DATA]\x7b\x7d[/WEATHER_DATA]Sunny today")) =
      cliClean (txt "[WEATHER_DATA]\x7b\x7d[/WEATHER_DATA]Sunny today") :=
  ⟨⟨by decide, by decide, by decide, by decide⟩,
    cliClean_idempotent_of_no_markers _ (by decide) (by decide) (by decide) (by decide)⟩

/-- Claim C3: when the `[WEATHER_DATA]` payload fails to JSON-parse, no
block is recorded (`parseWeatherFromText` returns null) and the extractor
leaves the raw marker text untouched in the display text. -/
theorem extractWeather_fail_open :
    (extractWeather (txt "[WEATHER_DATA]not json[/WEATHER_DATA]")).1.isNone = true ∧
    (extractWeather (txt "[WEATHER_DATA]not json[/WEATHER_DATA]")).2 =
      txt "[WEATHER_DATA]not json[/WEATHER_DATA]" ∧
    (parseWeatherFromText (txt "[WEATHER_DATA]not json[/WEATHER_DATA]")).isNone = true := by
  refine ⟨?_, ?_, ?_⟩ <;> decide

/-- `detectAIImageRequest` never returns an empty prompt: a capturing match
returns a nonempty trimmed capture or falls back to the whole message, and a
message matching any pattern is nonempty. -/
theorem detectAI_ne_some_nil (msgs : List Msg) :
    detectAIImageRequest msgs ≠ some [] := by
  unfold detectAIImageRequest
  cases h : lastUserText msgs with
  | none => simp
  | some content =>
    by_cases hc : content = []
    · subst hc
      decide
    · show runAIPats aiPats (lower content) content ≠ some []
      generalize aiPats = ps
      induction ps with
      | nil => simp [runAIPats]
      | cons hd rest ih =>
        cases hd with
        | cap p =>
          simp only [runAIPats]
          cases hs : searchCap p (lower content) with
          | none => exact ih
          | some c =>
            by_cases ht : trim c = []
            · simp [ht, hc]
            · simp [ht]
        | anchored p =>
          simp only [runAIPats]
          by_cases hs : searchEnd p (lower content) = true
          · simp [hs, hc]
          · simp only [Bool.not_eq_true] at hs
            simp only [hs, Bool.false_eq_true, if_false]
            exact ih

/-- Claim C5: generation patterns pre-empt search patterns — whenever the
AI-image detector matches, the classifier never returns `imageSearch`
(search detection is gated on the generation result being falsy); and for
the last user turn "generate an image of a sunset" the classifier returns
`imageGeneration "a sunset"`. -/
theorem generation_preempts_search :
    (∀ (msgs : List Msg) (cp : Option Bool) (q : Txt),
       detectAIImageRequest msgs ≠ none → classify cp msgs ≠ .imageSearch q) ∧
    classify (some true) [⟨.user, .plain (txt "generate an image of a sunset")⟩] =
      .imageGeneration (txt "a sunset") := by
  constructor
  · intro msgs cp q hd
    unfold classify
    by_cases hg : jsNotFalse cp = true
    · simp only [hg, if_pos]
      cases hai : detectAIImageRequest msgs with
      | none => exact absurd hai hd
      | some s =>
        have hs : s ≠ [] := by
          intro h; exact detectAI_ne_some_nil msgs (h ▸ hai)
        simp [jsTruthyTxt, hs]
    · simp only [Bool.not_eq_true] at hg
      simp [hg, jsTruthyTxt]
  · decide

/-- Witness for the C5 theorem at a concrete input. -/
theorem generation_preempts_search_witness :
    (detectAIImageRequest [⟨.user, .plain (txt "generate an image of a sunset")⟩] ≠ none) ∧
    classify (some true) [⟨.user, .plain (txt "generate an image of a sunset")⟩] ≠
      .imageSearch (txt "a sunset") :=
  ⟨by decide,
    generation_preempts_search.1 [⟨.user, .plain (txt "generate an image of a sunset")⟩]
      (some true) (txt "a sunset") (by decide)⟩

/-- Claim C6: a generation verb+noun phrase with no trailing subject still
classifies as image generation, with the entire original message as the
prompt: "generate an image" matches the anchored pattern (which has no
capture group, so `match[1]?.trim() || content` yields the full text). -/
theorem bare_generation_full_prompt :
    classify (some true) [⟨.user, .plain (txt "generate an image")⟩] =
      .imageGeneration (txt "generate an image") ∧
    detectAIImageRequest [⟨.user, .plain (txt "generate an image")⟩] =
      some (txt "generate an image") := by
  exact ⟨by decide, by decide⟩

/-- Claim C7: upstream 429 maps to a caller-visible 429 with the rate-limit
message, 402 to a 402 with the credits message, every other non-2xx status
to a generic 500 whose body is a fixed string independent of the upstream
error text, and a 2xx upstream response is forwarded unmodified. -/
theorem relay_status_mapping :
    (∀ body : Txt, relayRespond 429 body =
        .errJson 429 (txt "Rate limit exceeded. Please try again later.")) ∧
    (∀ body : Txt, relayRespond 402 body =
        .errJson 402 (txt "Usage limit reached. Please add credits to continue.")) ∧
    (∀ (s : Nat) (body body2 : Txt), ¬ (200 ≤ s ∧ s < 300) → s ≠ 429 → s ≠ 402 →
        relayRespond s body = .errJson 500 (txt "AI service temporarily unavailable") ∧
        relayRespond s body = relayRespond s body2) ∧
    (∀ (s : Nat) (body : Txt), 200 ≤ s → s < 300 → relayRespond s body = .stream body) := by
  refine ⟨fun body => ?_, fun body => ?_, fun s body body2 h1 h2 h3 => ?_, fun s body h1 h2 => ?_⟩
  · simp [relayRespond]
  · simp [relayRespond]
  · constructor
    · simp [relayRespond, h1, h2, h3]
    · simp [relayRespond, h1, h2, h3]
  · simp [relayRespond, h1, h2]

/-- Witness for the C7 theorem at concrete statuses. -/
theorem relay_status_mapping_witness :
    (relayRespond 503 (txt "secret upstream detail") =
        .errJson 500 (txt "AI service temporarily unavailable") ∧
      relayRespond 503 (txt "secret upstream detail") = relayRespond 503 (txt "other")) ∧
    relayRespond 200 (txt "sse body") = .stream (txt "sse body") :=
  ⟨relay_status_mapping.2.2.1 503 (txt "secret upstream detail") (txt "other")
      (by omega) (by omega) (by omega),
    relay_status_mapping.2.2.2 200 (txt "sse body") (by omega) (by omega)⟩

/-- Claim C9, counterexample: the prompt composer checks the preference
fields only for truthiness.  With the name preference equal to the default
placeholder "User" and the pronoun preference "prefer-not-to-say", both
fragments are still included in the composed system prompt, contradicting
the claim that they are only included when the values differ from those
defaults. -/
theorem composer_includes_placeholder_fragments :
    occursIn (nameFragment (txt "User"))
      (composeSystemPrompt false (some (txt "User")) (some (txt "prefer-not-to-say"))
        false (txt "celsius") [] none) = true ∧
    occursIn (pronounFragment (txt "prefer-not-to-say"))
      (composeSystemPrompt false (some (txt "User")) (some (txt "prefer-not-to-say"))
        false (txt "celsius") [] none) = true ∧
    buildUserContext (some (txt "User")) (some (txt "prefer-not-to-say")) =
      nameFragment (txt "User") ++ pronounFragment (txt "prefer-not-to-say") :=
  ⟨nameFragment_in_prompt false false (txt "User") (some (txt "prefer-not-to-say")) none
      (txt "celsius") [] (by decide),
    pronounFragment_in_prompt false false (some (txt "User")) none
      (txt "prefer-not-to-say") (txt "celsius") [] (by decide),
    by decide⟩

/-- Claim C9, amended: the composer includes the user-name fragment exactly
when a non-empty name preference is supplied — the default placeholder is
not special-cased — and the pronoun fragment exactly when a non-empty
pronoun preference is supplied — "prefer not to say" is not special-cased;
with absent or empty preferences the user-context contribution is empty. -/
theorem composer_fragments_iff_truthy :
    (∀ (ws cr : Bool) (n : Txt) (pr lab : Option Txt) (tu : Txt) (urls : List Txt),
       n ≠ [] →
       occursIn (nameFragment n) (composeSystemPrompt ws (some n) pr cr tu urls lab) = true) ∧
    (∀ (ws cr : Bool) (un lab : Option Txt) (p tu : Txt) (urls : List Txt),
       p ≠ [] →
       occursIn (pronounFragment p) (composeSystemPrompt ws un (some p) cr tu urls lab) = true) ∧
    buildUserContext none none = [] ∧
    buildUserContext (some []) (some []) = [] := by
  refine ⟨?_, ?_, by decide, by decide⟩
  · intro ws cr n pr lab tu urls hn
    exact nameFragment_in_prompt ws cr n pr lab tu urls hn
  · intro ws cr un lab p tu urls hp
    exact pronounFragment_in_prompt ws cr un lab p tu urls hp

/-- Witness for the amended C9 theorem at concrete preferences. -/
theorem composer_fragments_iff_truthy_witness :
    occursIn (nameFragment (txt "Ana"))
      (composeSystemPrompt false (some (txt "Ana")) none false (txt "celsius") [] none) =
      true ∧
    occursIn (pronounFragment (txt "she/her"))
      (composeSystemPrompt false none (some (txt "she/her")) false (txt "celsius") [] none) =
      true :=
  ⟨composer_fragments_iff_truthy.1 false false (txt "Ana") none none (txt "celsius") []
      (by decide),
    composer_fragments_iff_truthy.2.1 false false none none (txt "she/her") (txt "celsius") []
      (by decide)⟩

/-- Claim C1: (1) for every well-formed frame stream, feeding the byte
sequence split at an arbitrary offset into two chunks yields the same final
assembled assistant text as feeding it unsplit; (2) a complete `data:` line
whose JSON fails to parse is pushed back onto the front of the buffer,
reconstructed with its trailing newline, and the iteration stops there
(drain is a fixpoint), waiting for more bytes. -/
theorem sse_reassembly_split_invariant :
    (∀ ps : List Txt, (∀ p ∈ ps, wfPayload p) →
       ∀ (msgs0 : List Msg) (i : Nat),
         (runStream msgs0 [(encodeSSE ps).take i, (encodeSSE ps).drop i]).acc =
           (runStream msgs0 [encodeSSE ps]).acc) ∧
    (∀ (p rest acc : Txt) (msgs : List Msg),
       '\n' ∉ p → startsWith (txt "data: ") p = true → p.getLast? ≠ some '\r' →
       trim (p.drop 6) ≠ txt "[DONE]" → tryFrame (trim (p.drop 6)) = none →
       drain ⟨p ++ '\n' :: rest, acc, msgs⟩ = ⟨p ++ '\n' :: rest, acc, msgs⟩) := by
  constructor
  · intro ps hwf msgs0 i
    have hruns : runStream msgs0 [encodeSSE ps] = drain ⟨encodeSSE ps, [], msgs0⟩ := by
      simp [runStream, feed]
    have hsplit : runStream msgs0 [(encodeSSE ps).take i, (encodeSSE ps).drop i] =
        feed (drain ⟨(encodeSSE ps).take i, [], msgs0⟩) ((encodeSSE ps).drop i) := by
      simp [runStream, feed]
    have d13 : ∀ (a : Txt) (m : List Msg),
        drain ⟨txt "data: [DONE]\n", a, m⟩ = ⟨[], a, m⟩ := fun a m => rfl
    have d14 : ∀ (a : Txt) (m : List Msg),
        drain ⟨doneChunk, a, m⟩ = ⟨['\n'], a, m⟩ := fun a m => rfl
    have dnl : ∀ (a : Txt) (m : List Msg),
        drain ⟨['\n'], a, m⟩ = ⟨[], a, m⟩ := fun a m => rfl
    by_cases hA : i ≤ (encodeFrames ps).length + 12
    · have hg := goodBuf_take_encodeSSE ps hwf i hA
      have hd := drain_append ((encodeSSE ps).take i).length ((encodeSSE ps).take i)
        ((encodeSSE ps).drop i) [] msgs0 le_rfl hg
      rw [List.take_append_drop] at hd
      rw [hsplit, hruns, feed, ← hd]
    · push_neg at hA
      have hlenD : doneChunk.length = 14 := by decide
      have htk : (encodeSSE ps).take i =
          encodeFrames ps ++ doneChunk.take (i - (encodeFrames ps).length) := by
        rw [show encodeSSE ps = encodeFrames ps ++ doneChunk from rfl,
            List.take_append_eq_append_take,
            List.take_of_length_le (by omega)]
      have hdr : (encodeSSE ps).drop i =
          doneChunk.drop (i - (encodeFrames ps).length) := by
        rw [show encodeSSE ps = encodeFrames ps ++ doneChunk from rfl,
            List.drop_append_eq_append_drop,
            List.drop_of_length_le (by omega), List.nil_append]
      rw [hsplit, hruns, htk, hdr]
      by_cases hK : i - (encodeFrames ps).length ≤ 13
      · have hK13 : i - (encodeFrames ps).length = 13 := by omega
        rw [hK13,
            show doneChunk.take 13 = txt "data: [DONE]\n" from by decide,
            show doneChunk.drop 13 = ['\n'] from by decide,
            drain_encodeFrames ps hwf (txt "data: [DONE]\n") [] msgs0,
            d13, feed,
            show (⟨[], (runPayloads ps [] msgs0).1, (runPayloads ps [] msgs0).2⟩ :
              RState).buffer ++ ['\n'] = ['\n'] from rfl,
            show encodeSSE ps = encodeFrames ps ++ doneChunk from rfl,
            drain_encodeFrames ps hwf doneChunk [] msgs0, d14]
        rw [dnl]
      · push_neg at hK
        rw [List.take_of_length_le (by omega), List.drop_of_length_le (by omega),
            drain_encodeFrames ps hwf doneChunk [] msgs0, d14, feed,
            show (⟨['\n'], (runPayloads ps [] msgs0).1, (runPayloads ps [] msgs0).2⟩ :
              RState).buffer ++ [] = ['\n'] from by simp,
            show encodeSSE ps = encodeFrames ps ++ doneChunk from rfl,
            drain_encodeFrames ps hwf doneChunk [] msgs0, d14]
        rw [dnl]
  · intro p rest acc msgs hn hdp hcr hdn hpf
    obtain ⟨t, rfl⟩ := Iff.mp List.isPrefixOf_iff_prefix hdp
    have hscr : stripCR (txt "data: " ++ t) = txt "data: " ++ t := by
      unfold stripCR
      rw [if_neg hcr]
    rw [drain_step]
    try dsimp only
    rw [splitLine_data_line hn]
    try dsimp only
    rw [hscr]
    rw [if_neg (by
      simp only [not_or]
      exact ⟨by rw [show startsWith (txt ":") (txt "data: " ++ t) = false from rfl]; simp,
             trim_cons_ne_nil _ (by decide)⟩)]
    rw [if_neg (by
      simp only [not_not]
      exact startsWith_append_self _ _)]
    rw [if_neg hdn, hpf]

/-- Witness for the C1 theorem: a concrete one-frame stream split at offset
10, and a concrete partial-JSON data line that is pushed back verbatim. -/
theorem sse_reassembly_split_invariant_witness :
    ((∀ p ∈ [txt "\x7b\"choices\":[\x7b\"delta\":\x7b\"content\":\"Hi\"\x7d\x7d]\x7d"],
        wfPayload p) ∧
      (runStream []
        [(encodeSSE [txt "\x7b\"choices\":[\x7b\"delta\":\x7b\"content\":\"Hi\"\x7d\x7d]\x7d"]).take 10,
         (encodeSSE [txt "\x7b\"choices\":[\x7b\"delta\":\x7b\"content\":\"Hi\"\x7d\x7d]\x7d"]).drop 10]).acc =
      (runStream []
        [encodeSSE [txt "\x7b\"choices\":[\x7b\"delta\":\x7b\"content\":\"Hi\"\x7d\x7d]\x7d"]]).acc) ∧
    (('\n' ∉ txt "data: \x7b\"choi" ∧
        startsWith (txt "data: ") (txt "data: \x7b\"choi") = true ∧
        (txt "data: \x7b\"choi").getLast? ≠ some '\r' ∧
        trim ((txt "data: \x7b\"choi").drop 6) ≠ txt "[DONE]" ∧
        (tryFrame (trim ((txt "data: \x7b\"choi").drop 6))).isNone = true) ∧
      drain ⟨txt "data: \x7b\"choi" ++ '\n' :: txt "more", [], []⟩ =
        ⟨txt "data: \x7b\"choi" ++ '\n' :: txt "more", [], []⟩) :=
  ⟨⟨by decide,
    sse_reassembly_split_invariant.1
      [txt "\x7b\"choices\":[\x7b\"delta\":\x7b\"content\":\"Hi\"\x7d\x7d]\x7d"]
      (by decide) [] 10⟩,
   ⟨⟨by decide, by decide, by decide, by decide, by decide⟩,
    sse_reassembly_split_invariant.2 (txt "data: \x7b\"choi") (txt "more") [] []
      (by decide) (by decide) (by decide) (by decide)
      (Option.isNone_iff_eq_none.mp (by decide))⟩⟩

/-- Claim C4, counterexample: after a mid-stream transport error the partial
assistant text is NOT discarded — the fixed apology is appended as a second
assistant message after the partial turn, so the conversation retains the
partial assistant turn. -/
theorem transport_error_retains_partial_text :
    runSend [⟨.user, .plain (txt "q")⟩]
        [txt "data: \x7b\"choices\":[\x7b\"delta\":\x7b\"content\":\"Hi\"\x7d\x7d]\x7d\n"]
        true =
      [⟨.user, .plain (txt "q")⟩, ⟨.assistant, .plain (txt "Hi")⟩, apologyMsg] ∧
    runSend [⟨.user, .plain (txt "q")⟩]
        [txt "data: \x7b\"choices\":[\x7b\"delta\":\x7b\"content\":\"Hi\"\x7d\x7d]\x7d\n"]
        true ≠
      [⟨.user, .plain (txt "q")⟩, apologyMsg] := by
  exact ⟨by decide, by decide⟩

/-- Claim C4, amended: on an unrecoverable transport failure the client
appends the fixed apology message as an additional assistant turn after
whatever was already displayed; when partial text had accumulated, the
partial assistant turn remains in the conversation immediately before the
apology — it is not discarded. -/
theorem transport_error_appends_apology (msgs0 : List Msg) (chunks : List Txt)
    (h0 : lastNotAssistant msgs0 = true)
    (ha : (runStream msgs0 chunks).acc ≠ []) :
    runSend msgs0 chunks true = (runStream msgs0 chunks).msgs ++ [apologyMsg] ∧
    runSend msgs0 chunks true =
      msgs0 ++ [⟨.assistant, .plain (runStream msgs0 chunks).acc⟩, apologyMsg] := by
  constructor
  · simp [runSend]
  · have hinv := runStream_inv msgs0 h0 chunks
    rcases hinv with ⟨hz, _⟩ | ⟨_, hm⟩
    · exact absurd hz ha
    · simp [runSend, hm]

/-- Witness for the amended C4 theorem at a concrete stream. -/
theorem transport_error_appends_apology_witness :
    (lastNotAssistant [⟨.user, .plain (txt "hello")⟩] = true ∧
      (runStream [⟨.user, .plain (txt "hello")⟩]
        [txt "data: \x7b\"choices\":[\x7b\"delta\":\x7b\"content\":\"Par\"\x7d\x7d]\x7d\n"]).acc ≠ []) ∧
    runSend [⟨.user, .plain (txt "hello")⟩]
        [txt "data: \x7b\"choices\":[\x7b\"delta\":\x7b\"content\":\"Par\"\x7d\x7d]\x7d\n"] true =
      [⟨.user, .plain (txt "hello")⟩, ⟨.assistant, .plain (txt "Par")⟩, apologyMsg] := by
  refine ⟨⟨by decide, by decide⟩, ?_⟩
  have h := (transport_error_appends_apology [⟨.user, .plain (txt "hello")⟩]
    [txt "data: \x7b\"choices\":[\x7b\"delta\":\x7b\"content\":\"Par\"\x7d\x7d]\x7d\n"]
    (by decide) (by decide)).2
  rw [show (runStream [⟨.user, .plain (txt "hello")⟩]
      [txt "data: \x7b\"choices\":[\x7b\"delta\":\x7b\"content\":\"Par\"\x7d\x7d]\x7d\n"]).acc =
      txt "Par" from by decide] at h
  simpa using h

/-- Claim C8: a stream consisting only of `data: [DONE]` leaves the
accumulator empty and the client then substitutes the fixed
"couldn\x27t generate a response" message instead of showing an empty
assistant message; in general, whenever the stream ends without error and
with an empty accumulator, that fixed message is appended. -/
theorem empty_done_substitutes_message :
    (∀ msgs0 : List Msg,
       runSend msgs0 [txt "data: [DONE]\n\n"] false = msgs0 ++ [noResponseMsg] ∧
       (runStream msgs0 [txt "data: [DONE]\n\n"]).acc = []) ∧
    (∀ (msgs0 : List Msg) (chunks : List Txt),
       (runStream msgs0 chunks).acc = [] →
       runSend msgs0 chunks false = (runStream msgs0 chunks).msgs ++ [noResponseMsg]) := by
  constructor
  · intro msgs0
    exact ⟨rfl, rfl⟩
  · intro msgs0 chunks hz
    simp [runSend, hz]

/-- Witness for the C8 theorem at a concrete stream. -/
theorem empty_done_substitutes_message_witness :
    ((runStream [⟨.user, .plain (txt "hi")⟩] [txt "data: [DONE]\n\n"]).acc = []) ∧
    runSend [⟨.user, .plain (txt "hi")⟩] [txt "data: [DONE]\n\n"] false =
      (runStream [⟨.user, .plain (txt "hi")⟩] [txt "data: [DONE]\n\n"]).msgs ++
        [noResponseMsg] :=
  ⟨by decide,
    empty_done_substitutes_message.2 [⟨.user, .plain (txt "hi")⟩]
      [txt "data: [DONE]\n\n"] (by decide)⟩

/-- Claim C10: the Cloud+ gate is the comparison `cloudPlusEnabled !== false`,
so an absent field behaves exactly like `true` (both detections run), and the
image capabilities are skipped — the classifier returns the plain-chat
intent for every message list — only when the field is literally `false`. -/
theorem cloudPlus_gate_literal_false :
    (∀ msgs : List Msg, classify none msgs = classify (some true) msgs) ∧
    (∀ msgs : List Msg, classify (some false) msgs = .chat) := by
  constructor
  · intro msgs
    rfl
  · intro msgs
    simp [classify, jsNotFalse, jsTruthyTxt]

end Cloud
